import Mathlib

/-!
Verification of the SieGe-Gatekeeper core pipeline (diff parser, rule
analyzers, aggregator, review payload builder) against its specification.

The Python source is embedded shallowly: a line of text is a `List Char`
(the source operates on the result of `str.splitlines()`, so a patch is a
`List (List Char)`); machine strings are `List Char`; Python `int` values
that may be negative are `Int`, line numbers and counts are `Nat`.
Python regular expressions are embedded as executable scanning functions
over `List Char`; `\w`, `\s` and `\d` are modelled by their ASCII subsets
(the inputs of interest are ASCII, and no claim depends on the difference).
-/

/-! ## Generic character and list utilities -/

/-- The character list of a string literal (used to write the source's
string constants). -/
def pstr (s : String) : List Char := s.data

/-- `stripL p l` returns `some rest` when `p` is a prefix of `l`,
mirroring an anchored literal match in a Python regex. -/
def stripL : List Char → List Char → Option (List Char)
  | [], l => some l
  | _ :: _, [] => none
  | p :: ps, c :: cs => if p = c then stripL ps cs else none

/-- ASCII approximation of Python's `\w` (word character). -/
def isPyWordChar (c : Char) : Bool := c.isAlphanum || c = '_'

/-- ASCII approximation of Python's `\s` / `str.strip()` whitespace. -/
def isPySpace (c : Char) : Bool :=
  c = ' ' || c = '\t' || c = '\n' || c = '\r' || c = '\x0b' || c = '\x0c'

/-- Python `str.strip()` (both ends, whitespace). -/
def pyStrip (l : List Char) : List Char :=
  ((l.dropWhile isPySpace).reverse.dropWhile isPySpace).reverse

/-- Python `str.rstrip(" \t")`. -/
def rstripSpTab (l : List Char) : List Char :=
  (l.reverse.dropWhile (fun c => c = ' ' || c = '\t')).reverse

/-- Python `pat in s` (substring containment). -/
def containsSubstr (pat : List Char) : List Char → Bool
  | [] => pat.isPrefixOf []
  | c :: cs => pat.isPrefixOf (c :: cs) || containsSubstr pat cs

/-- Scan for `s.count(pat)`: `skip` is the number of characters still to
pass over after the previous match (so occurrences do not overlap). -/
def countSubstrAux (pat : List Char) : List Char → Nat → Nat
  | [], _ => 0
  | _ :: cs, Nat.succ k => countSubstrAux pat cs k
  | c :: cs, 0 =>
    if pat.isPrefixOf (c :: cs) then
      1 + countSubstrAux pat cs (pat.length - 1)
    else
      countSubstrAux pat cs 0

/-- Python `s.count(pat)`: non-overlapping occurrences, scanning left to
right and resuming after each match. -/
def countSubstr (pat : List Char) (s : List Char) : Nat :=
  countSubstrAux pat s 0

/-- Decimal digit value of a character, `none` when not `0`-`9`
(ASCII subset of the regex `\d`). -/
def digitVal (c : Char) : Option Nat :=
  if '0' ≤ c ∧ c ≤ '9' then some (c.toNat - '0'.toNat) else none

/-- Maximal-munch scan of decimal digits with an accumulator. -/
def takeDigitsAux (acc : Nat) : List Char → Nat × List Char
  | [] => (acc, [])
  | c :: cs =>
    match digitVal c with
    | some d => takeDigitsAux (10 * acc + d) cs
    | none => (acc, c :: cs)

/-- Embeds `\d+` at the head of the input: requires at least one digit,
consumes the maximal run, returns its value and the rest. -/
def parseDigits : List Char → Option (Nat × List Char)
  | [] => none
  | c :: cs =>
    match digitVal c with
    | some d => some (takeDigitsAux d cs)
    | none => none

/-- Decimal rendering of a `Nat` (most significant digit first): `fuel`
is structural (any `fuel > n` suffices, since `n / 10 < n` for `n > 0`). -/
def natDigitsAux (fuel : Nat) (n : Nat) (acc : List Char) : List Char :=
  match fuel with
  | 0 => acc
  | Nat.succ fuel =>
    let d := Char.ofNat (48 + n % 10)
    if n < 10 then d :: acc else natDigitsAux fuel (n / 10) (d :: acc)

/-- Python `str(n)` for `n : Nat`. -/
def natDigits (n : Nat) : List Char := natDigitsAux (n + 1) n []

/-- Python `str(i)` for `i : Int`. -/
def intDigits (i : Int) : List Char :=
  if i < 0 then '-' :: natDigits (-i).toNat else natDigits i.toNat

/-- Python `str.upper()` (ASCII). -/
def asciiUpper (l : List Char) : List Char := l.map Char.toUpper

/-! ## `app/diff_parser.py`: data model -/

/-- One added line recovered from a unified diff
(`ChangedLine` in `app/diff_parser.py`). -/
structure ChangedLine where
  number : Nat
  content : List Char
deriving DecidableEq

/-- One changed file of a pull request (`FileDiff` in `app/diff_parser.py`). -/
structure FileDiff where
  path : List Char
  language : List Char
  additions : Int
  deletions : Int
  changed_lines : List ChangedLine
deriving DecidableEq

/-! ## `app/diff_parser.py`: hunk header regex and `parse_patch` -/

/-- After the mandatory digits of a hunk-header field, the optional
`(?:,\d+)?` group followed by a mandatory non-digit: if a comma follows,
digits must follow it (backtracking to the empty group cannot succeed
because the next literal in the pattern is a space, not a comma). -/
def skipOptCommaDigits : List Char → Option (List Char)
  | ',' :: rest =>
    match parseDigits rest with
    | some (_, r) => some r
    | none => none
  | s => some s

/-- Embeds `HUNK_HEADER_RE.match(line)` for
`^@@ -\d+(?:,\d+)? \+(\d+)(?:,\d+)? @@`, returning capture group 1
(the new-file start line) on success. -/
def hunkNewStart (l : List Char) : Option Nat :=
  match stripL (pstr "@@ -") l with
  | none => none
  | some r1 =>
    match parseDigits r1 with
    | none => none
    | some (_, r2) =>
      match skipOptCommaDigits r2 with
      | none => none
      | some r3 =>
        match stripL (pstr " +") r3 with
        | none => none
        | some r4 =>
          match parseDigits r4 with
          | none => none
          | some (n, r5) =>
            match skipOptCommaDigits r5 with
            | none => none
            | some r6 =>
              match stripL (pstr " @@") r6 with
              | none => none
              | some _ => some n

/-- `raw_line.startswith("@@")`. -/
def isHunkMarked (l : List Char) : Bool := (pstr "@@").isPrefixOf l

/-- `raw_line.startswith("+") and not raw_line.startswith("+++")`. -/
def isAddedB (l : List Char) : Bool :=
  (pstr "+").isPrefixOf l && !((pstr "+++").isPrefixOf l)

/-- `raw_line.startswith("-") and not raw_line.startswith("---")`. -/
def isRemovedB (l : List Char) : Bool :=
  (pstr "-").isPrefixOf l && !((pstr "---").isPrefixOf l)

/-- The loop of `parse_patch`, with the `new_line_number` cursor explicit. -/
def parsePatchAux : List (List Char) → Nat → List ChangedLine
  | [], _ => []
  | l :: rest, cursor =>
    if isHunkMarked l then
      match hunkNewStart l with
      | some n => parsePatchAux rest n
      | none => parsePatchAux rest cursor
    else if isAddedB l then
      ⟨cursor, l.drop 1⟩ :: parsePatchAux rest (cursor + 1)
    else if isRemovedB l then
      parsePatchAux rest cursor
    else if (pstr "\\").isPrefixOf l then
      parsePatchAux rest cursor
    else
      parsePatchAux rest (cursor + 1)

/-- `parse_patch` of `app/diff_parser.py`, over the result of
`patch.splitlines()`. -/
def parse_patch (lines : List (List Char)) : List ChangedLine :=
  parsePatchAux lines 0

/-! ## `app/diff_parser.py`: `detect_language` -/

/-- `LANGUAGE_BY_EXTENSION` of `app/diff_parser.py`. -/
def LANGUAGE_BY_EXTENSION : List (List Char × List Char) :=
  [ (pstr ".c", pstr "c"), (pstr ".cc", pstr "cpp"), (pstr ".cpp", pstr "cpp"),
    (pstr ".cs", pstr "csharp"), (pstr ".go", pstr "go"),
    (pstr ".java", pstr "java"), (pstr ".js", pstr "javascript"),
    (pstr ".jsx", pstr "javascript"), (pstr ".kt", pstr "kotlin"),
    (pstr ".php", pstr "php"), (pstr ".py", pstr "python"),
    (pstr ".rb", pstr "ruby"), (pstr ".rs", pstr "rust"),
    (pstr ".scala", pstr "scala"), (pstr ".sh", pstr "shell"),
    (pstr ".sql", pstr "sql"), (pstr ".swift", pstr "swift"),
    (pstr ".ts", pstr "typescript"), (pstr ".tsx", pstr "typescript") ]

/-- Index of the last occurrence of `c`, or `-1` (Python `str.rfind`). -/
def lastIdxAux (c : Char) : List Char → Nat → Int → Int
  | [], _, acc => acc
  | x :: xs, i, acc => lastIdxAux c xs (i + 1) (if x = c then (i : Int) else acc)

/-- Python `p.rfind(c)`. -/
def rfindChar (c : Char) (p : List Char) : Int := lastIdxAux c p 0 (-1)

/-- The extension part of `os.path.splitext(p)` for POSIX paths: the
suffix from the last dot, unless that dot belongs to the leading dots of
the basename (CPython's `genericpath._splitext`). -/
def splitextExt (p : List Char) : List Char :=
  let sepIndex := rfindChar '/' p
  let dotIndex := rfindChar '.' p
  if dotIndex > sepIndex then
    if ((p.drop (sepIndex + 1).toNat).take (dotIndex - sepIndex - 1).toNat).any
        (fun c => c ≠ '.') then
      p.drop dotIndex.toNat
    else []
  else []

/-- `detect_language` of `app/diff_parser.py`:
`LANGUAGE_BY_EXTENSION.get(splitext(file_path.lower())[1], "text")`.
`str.lower()` is modelled on ASCII. -/
def detect_language (file_path : List Char) : List Char :=
  (LANGUAGE_BY_EXTENSION.lookup (splitextExt (file_path.map Char.toLower))).getD
    (pstr "text")

/-! ## `app/diff_parser.py`: `build_file_diffs` -/

/-- One entry of the GitHub `files` payload consumed by
`build_file_diffs`. A missing `filename` is `none` (the source's
`str(changed_file.get("filename", ""))` then yields the empty string);
`patch` is the optional patch body, given after `splitlines()` (an empty
string corresponds to `[]`, and both `None` and `""` are falsy in the
source's `if not patch`); `additions`/`deletions` go through
`int(... or 0)`. -/
structure ChangedFilePayload where
  filename : Option (List Char)
  patch : Option (List (List Char))
  additions : Option Int
  deletions : Option Int
deriving DecidableEq

/-- `build_file_diffs` of `app/diff_parser.py`. -/
def build_file_diffs : List ChangedFilePayload → List FileDiff
  | [] => []
  | cf :: rest =>
    let path := pyStrip (cf.filename.getD [])
    if path.isEmpty then build_file_diffs rest
    else
      match cf.patch with
      | none => build_file_diffs rest
      | some plines =>
        if plines.isEmpty then build_file_diffs rest
        else
          let changed := parse_patch plines
          if changed.isEmpty then build_file_diffs rest
          else
            { path := path
              language := detect_language path
              additions := cf.additions.getD 0
              deletions := cf.deletions.getD 0
              changed_lines := changed } :: build_file_diffs rest

/-! ## `app/analyzers/__init__.py`: `Finding` and severity ranking -/

/-- `Finding` of `app/analyzers/__init__.py`. `severity` is a Python
string (`Literal["high", "medium", "low"]` is not enforced at runtime). -/
structure Finding where
  path : List Char
  line : Nat
  severity : List Char
  rule_id : List Char
  message : List Char
  snippet : List Char
deriving DecidableEq

/-- `SEVERITY_RANK` of `app/analyzers/__init__.py`. -/
def SEVERITY_RANK : List (List Char × Nat) :=
  [ (pstr "high", 0), (pstr "medium", 1), (pstr "low", 2) ]

/-- `SEVERITY_RANK.get(severity, 99)`. -/
def severityRank (s : List Char) : Nat := (SEVERITY_RANK.lookup s).getD 99

/-! ## Regex scanners used by the analyzers -/

/-- `\b` before a word character: the previous character (when any) is
not a word character. -/
def boundaryBefore : Option Char → Bool
  | none => true
  | some c => !isPyWordChar c

/-- `\b` after a word character: the next character (when any) is not a
word character. -/
def boundaryAfter : List Char → Bool
  | [] => true
  | c :: _ => !isPyWordChar c

/-- `re.search`: try a position matcher (which also sees the previous
character, for word boundaries) at every position of the input,
including the final empty position. -/
def searchFrom (m : Option Char → List Char → Bool) :
    Option Char → List Char → Bool
  | prev, [] => m prev []
  | prev, c :: cs => m prev (c :: cs) || searchFrom m (some c) cs

/-- Case-insensitive literal match at the head (ASCII lowering, as in
`re.IGNORECASE` over the rule words), returning the rest. -/
def matchCI : List Char → List Char → Option (List Char)
  | [], s => some s
  | _ :: _, [] => none
  | p :: ps, c :: cs => if p.toLower = c.toLower then matchCI ps cs else none

/-- One alternative of `TODO_RE` at a position: the word matches
case-insensitively and ends at a word boundary. -/
def tryWordCI (w : List Char) (s : List Char) : Bool :=
  match matchCI w s with
  | some rest => boundaryAfter rest
  | none => false

/-- `\b(TODO|FIXME|XXX)\b` (with `re.IGNORECASE`) at one position. -/
def todoAt (prev : Option Char) (s : List Char) : Bool :=
  boundaryBefore prev &&
    (tryWordCI (pstr "TODO") s || tryWordCI (pstr "FIXME") s ||
      tryWordCI (pstr "XXX") s)

/-- `TODO_RE.search` of `app/analyzers/lint.py`. -/
def todoSearch (s : List Char) : Bool := searchFrom todoAt none s

/-- `\b<word>\s*\(` at one position (used for `eval` and `exec`). -/
def callAt (word : List Char) (prev : Option Char) (s : List Char) : Bool :=
  boundaryBefore prev &&
    match stripL word s with
    | some rest =>
      match rest.dropWhile isPySpace with
      | '(' :: _ => true
      | _ => false
    | none => false

/-- `EVAL_RE.search` of `app/analyzers/python_ast.py` (`\beval\s*\(`). -/
def searchEval (s : List Char) : Bool := searchFrom (callAt (pstr "eval")) none s

/-- `EXEC_RE.search` of `app/analyzers/python_ast.py` (`\bexec\s*\(`). -/
def searchExec (s : List Char) : Bool := searchFrom (callAt (pstr "exec")) none s

/-- `shell\s*=\s*True` at one position (the `\s*` may cross newlines). -/
def shellTrueAt (s : List Char) : Bool :=
  match stripL (pstr "shell") s with
  | some r1 =>
    match r1.dropWhile isPySpace with
    | '=' :: r2 => (stripL (pstr "True") (r2.dropWhile isPySpace)).isSome
    | _ => false
  | none => false

/-- `.*shell\s*=\s*True`: an occurrence of `shell\s*=\s*True` reachable
from here without the `.*` crossing a newline. -/
def searchShellTrue : List Char → Bool
  | [] => false
  | c :: cs => shellTrueAt (c :: cs) || (c ≠ '\n' && searchShellTrue cs)

/-- `\bsubprocess\.\w+\(.*shell\s*=\s*True` at one position
(`\w+` is maximal-munch, which is exact here because the next pattern
character `(` is not a word character). -/
def subprocessShellAt (prev : Option Char) (s : List Char) : Bool :=
  boundaryBefore prev &&
    match stripL (pstr "subprocess.") s with
    | some r1 =>
      !(r1.takeWhile isPyWordChar).isEmpty &&
        match r1.dropWhile isPyWordChar with
        | '(' :: r3 => searchShellTrue r3
        | _ => false
    | none => false

/-- `SUBPROCESS_SHELL_RE.search` of `app/analyzers/python_ast.py`. -/
def searchSubprocessShell (s : List Char) : Bool :=
  searchFrom subprocessShellAt none s

/-- `\bpickle\.loads?\(` at one position. -/
def pickleLoadAt (prev : Option Char) (s : List Char) : Bool :=
  boundaryBefore prev &&
    match stripL (pstr "pickle.load") s with
    | some ('(' :: _) => true
    | some ('s' :: '(' :: _) => true
    | _ => false

/-- `PICKLE_LOAD_RE.search` of `app/analyzers/python_ast.py`. -/
def searchPickleLoad (s : List Char) : Bool := searchFrom pickleLoadAt none s

/-- `\byaml\.load\s*\(` at one position. -/
def yamlLoadAt (prev : Option Char) (s : List Char) : Bool :=
  boundaryBefore prev &&
    match stripL (pstr "yaml.load") s with
    | some rest =>
      match rest.dropWhile isPySpace with
      | '(' :: _ => true
      | _ => false
    | none => false

/-- `YAML_LOAD_RE.search` of `app/analyzers/python_ast.py`. -/
def searchYamlLoad (s : List Char) : Bool := searchFrom yamlLoadAt none s

/-- First occurrence of `t` before any newline (for a `.*t` gap in
`MULTI_TERNARY_RE`, where `.` does not match a newline), returning the
rest after it. -/
def findCharNoNL (t : Char) : List Char → Option (List Char)
  | [] => none
  | c :: cs => if c = t then some cs else if c = '\n' then none else findCharNoNL t cs

/-- `\?.*:.*\?.*:` at one position (leftmost choices are complete within
the newline-free window starting at the initial `?`). -/
def ternaryAt : List Char → Bool
  | '?' :: rest =>
    (match findCharNoNL ':' rest with
     | some r1 =>
       match findCharNoNL '?' r1 with
       | some r2 => (findCharNoNL ':' r2).isSome
       | none => false
     | none => false)
  | _ => false

/-- `MULTI_TERNARY_RE.search` of `app/analyzers/complexity.py`. -/
def searchTernary : List Char → Bool
  | [] => false
  | c :: cs => ternaryAt (c :: cs) || searchTernary cs

/-! ## `app/analyzers/lint.py` -/

/-- `MAX_LINE_LENGTH` of `app/analyzers/lint.py`
(`int(os.getenv("MAX_LINE_LENGTH", "120"))`, modelled at its default). -/
def MAX_LINE_LENGTH : Nat := 120

/-- The findings the lint analyzer emits for one changed line, in the
order the source appends them. -/
def lintLine (fd : FileDiff) (cl : ChangedLine) : List Finding :=
  let text := cl.content
  let stripped := pyStrip text
  let snippet := (if stripped.isEmpty then pstr "<empty line>" else stripped).take 160
  (if rstripSpTab text ≠ text then
    [⟨fd.path, cl.number, pstr "low", pstr "TRAILING_WHITESPACE",
      pstr "Line has trailing whitespace.", snippet⟩]
  else []) ++
  (if text.length > MAX_LINE_LENGTH then
    [⟨fd.path, cl.number, pstr "low", pstr "LINE_TOO_LONG",
      pstr "Line length is " ++ natDigits text.length ++
        pstr " characters (limit: " ++ natDigits MAX_LINE_LENGTH ++ pstr ").",
      snippet⟩]
  else []) ++
  (if todoSearch text then
    [⟨fd.path, cl.number, pstr "low", pstr "TODO_COMMENT",
      pstr "TODO/FIXME marker found in changed line.", snippet⟩]
  else []) ++
  (if fd.language = pstr "python" then
    (if (pstr "print(").isPrefixOf stripped then
      [⟨fd.path, cl.number, pstr "low", pstr "PY_DEBUG_PRINT",
        pstr "Debug print statement found in changed line.", snippet⟩]
    else []) ++
    (if (text.takeWhile (fun c => c = ' ' || c = '\t')).contains '\t' then
      [⟨fd.path, cl.number, pstr "medium", pstr "PY_TAB_INDENT",
        pstr "Tab character used for indentation in Python code.", snippet⟩]
    else [])
  else []) ++
  (if fd.language = pstr "javascript" ∨ fd.language = pstr "typescript" then
    (if containsSubstr (pstr "console.log(") stripped then
      [⟨fd.path, cl.number, pstr "low", pstr "JS_DEBUG_LOG",
        pstr "Debug console.log statement found in changed line.", snippet⟩]
    else [])
  else [])

/-- `lint_findings` of `app/analyzers/lint.py`. -/
def lint_findings (file_diffs : List FileDiff) : List Finding :=
  file_diffs.flatMap fun fd => fd.changed_lines.flatMap (lintLine fd)

/-! ## `app/analyzers/python_ast.py` -/

/-- The findings the security analyzer emits for one changed line of a
Python file, in the order the source appends them. -/
def securityLine (fd : FileDiff) (cl : ChangedLine) : List Finding :=
  let text := cl.content
  let snippet :=
    (if (pyStrip text).isEmpty then pstr "<empty line>" else pyStrip text).take 160
  (if searchEval text then
    [⟨fd.path, cl.number, pstr "high", pstr "PY_EVAL_USAGE",
      pstr "Avoid `eval()` on changed lines; use safer parsing.", snippet⟩]
  else []) ++
  (if searchExec text then
    [⟨fd.path, cl.number, pstr "high", pstr "PY_EXEC_USAGE",
      pstr "Avoid `exec()` on changed lines.", snippet⟩]
  else []) ++
  (if searchSubprocessShell text then
    [⟨fd.path, cl.number, pstr "high", pstr "PY_SUBPROCESS_SHELL_TRUE",
      pstr "subprocess with shell=True on changed line may enable command injection.",
      snippet⟩]
  else []) ++
  (if searchPickleLoad text then
    [⟨fd.path, cl.number, pstr "medium", pstr "PY_PICKLE_LOAD",
      pstr "pickle.loads/load can execute arbitrary code on untrusted input.",
      snippet⟩]
  else []) ++
  (if searchYamlLoad text && !containsSubstr (pstr "safe_load") text then
    [⟨fd.path, cl.number, pstr "medium", pstr "PY_YAML_LOAD",
      pstr "Use yaml.safe_load instead of yaml.load.", snippet⟩]
  else [])

/-- `python_security_findings` of `app/analyzers/python_ast.py`
(non-Python files are skipped entirely). -/
def python_security_findings (file_diffs : List FileDiff) : List Finding :=
  file_diffs.flatMap fun fd =>
    if fd.language = pstr "python" then fd.changed_lines.flatMap (securityLine fd)
    else []

/-! ## `app/analyzers/complexity.py` -/

/-- The findings the complexity analyzer emits for one changed line
(blank lines are skipped), in the order the source appends them. -/
def complexityLine (fd : FileDiff) (cl : ChangedLine) : List Finding :=
  let text := cl.content
  let stripped := pyStrip text
  if stripped.isEmpty then []
  else
    let snippet := stripped.take 160
    (if countSubstr (pstr " and ") stripped + countSubstr (pstr " or ") stripped ≥ 3 then
      [⟨fd.path, cl.number, pstr "medium", pstr "COMPLEX_BOOLEAN_EXPRESSION",
        pstr "Changed line has a dense boolean expression; consider extracting named sub-expressions.",
        snippet⟩]
    else []) ++
    (if (text.takeWhile (fun c => c = ' ')).length ≥ 16 ∧
        ((pstr "if ").isPrefixOf stripped ∨ (pstr "for ").isPrefixOf stripped ∨
          (pstr "while ").isPrefixOf stripped ∨ (pstr "try:").isPrefixOf stripped ∨
          (pstr "with ").isPrefixOf stripped) then
      [⟨fd.path, cl.number, pstr "low", pstr "DEEP_NESTING",
        pstr "Changed control-flow line appears deeply nested; consider refactoring.",
        snippet⟩]
    else []) ++
    (if (fd.language = pstr "javascript" ∨ fd.language = pstr "typescript") ∧
        searchTernary stripped then
      [⟨fd.path, cl.number, pstr "medium", pstr "NESTED_TERNARY",
        pstr "Nested ternary detected on changed line; consider clearer control flow.",
        snippet⟩]
    else [])

/-- `complexity_findings` of `app/analyzers/complexity.py`. -/
def complexity_findings (file_diffs : List FileDiff) : List Finding :=
  file_diffs.flatMap fun fd => fd.changed_lines.flatMap (complexityLine fd)

/-! ## `app/analyzers/__init__.py`: `run_all_analyzers` -/

/-- Strict lexicographic comparison of Python strings (code-point order). -/
def listLt : List Char → List Char → Bool
  | [], [] => false
  | [], _ :: _ => true
  | _ :: _, [] => false
  | a :: as, b :: bs =>
    if a.toNat < b.toNat then true
    else if b.toNat < a.toNat then false
    else listLt as bs

/-- The sort key of `run_all_analyzers`:
`(SEVERITY_RANK.get(severity, 99), path, line, rule_id)`. -/
def findingKey (f : Finding) : Nat × List Char × Nat × List Char :=
  (severityRank f.severity, f.path, f.line, f.rule_id)

/-- Python's `<` on `Nat` components of a key tuple. -/
def natLtB (a b : Nat) : Bool := decide (a < b)

/-- Lexicographic combination of strict comparisons, as Python compares
tuples: the first component decides unless equal under `ltA`. -/
def pairLt (ltA : α → α → Bool) (ltB : β → β → Bool) (x y : α × β) : Bool :=
  if ltA x.1 y.1 then true
  else if ltA y.1 x.1 then false
  else ltB x.2 y.2

/-- Strict lexicographic comparison of two sort keys, as Python compares
the key tuples `(rank, path, line, rule_id)`. -/
def keyLt : Nat × List Char × Nat × List Char →
    Nat × List Char × Nat × List Char → Bool :=
  pairLt natLtB (pairLt listLt (pairLt natLtB listLt))

/-- The (total, reflexive) comparison `key(a) ≤ key(b)` used to express
sortedness of Python's `sorted`. -/
def findingLe (a b : Finding) : Bool := !(keyLt (findingKey b) (findingKey a))

/-- `run_all_analyzers` of `app/analyzers/__init__.py`: concatenate the
three analyzers' findings (lint, security, complexity, in source order)
and sort them by `findingKey` (Python's `sorted` is a stable merge sort). -/
def run_all_analyzers (file_diffs : List FileDiff) : List Finding :=
  (lint_findings file_diffs ++ python_security_findings file_diffs ++
    complexity_findings file_diffs).mergeSort findingLe

/-! ## `app/review_formatter.py` -/

/-- The default of `_env_int("MAX_INLINE_COMMENTS", 50)`; the
environment-configured limit is modelled as an explicit parameter. -/
def MAX_INLINE_COMMENTS_DEFAULT : Int := 50

/-- One inline review comment record
(`{"path": ..., "line": ..., "side": "RIGHT", "body": ...}`). -/
structure InlineComment where
  path : List Char
  line : Nat
  side : List Char
  body : List Char
deriving DecidableEq

/-- The deduplication key `(finding.path, finding.line, finding.rule_id)`. -/
def inlineKey (f : Finding) : List Char × Nat × List Char :=
  (f.path, f.line, f.rule_id)

/-- The comment built for one finding:
`[{SEVERITY}] {message}\n\n`` {snippet or "<empty line>"} ``, body
truncated to 64000 characters, side `"RIGHT"`. -/
def mkComment (f : Finding) : InlineComment :=
  { path := f.path
    line := f.line
    side := pstr "RIGHT"
    body :=
      ((pstr "[" ++ asciiUpper f.severity ++ pstr "] " ++ f.message ++
        pstr "\n\n`" ++
        (if f.snippet.isEmpty then pstr "<empty line>" else f.snippet) ++
        pstr "`").take 64000) }

/-- The loop of `_build_inline_comments`: `seen` is the set of emitted
keys, `count` the number of comments appended so far; after appending, the
loop breaks as soon as `len(comments) >= limit`. -/
def buildInlineAux (limit : Int) (seen : List (List Char × Nat × List Char))
    (count : Nat) : List Finding → List InlineComment
  | [] => []
  | f :: fs =>
    if inlineKey f ∈ seen then buildInlineAux limit seen count fs
    else
      if ((count : Int) + 1) ≥ limit then [mkComment f]
      else mkComment f :: buildInlineAux limit (inlineKey f :: seen) (count + 1) fs

/-- `_build_inline_comments` of `app/review_formatter.py`. -/
def _build_inline_comments (findings : List Finding) (limit : Int) :
    List InlineComment :=
  if limit ≤ 0 then [] else buildInlineAux limit [] 0 findings

/-- `_escape_cell` of `app/review_formatter.py`
(`value.replace("|", "\\|")`). -/
def _escape_cell (value : List Char) : List Char :=
  value.flatMap fun c => if c = '|' then ['\\', '|'] else [c]

/-- One row of the findings table:
`` | `path` | line | SEVERITY | `rule` | message | `` with the cells
escaped as in the source. -/
def findingRow (f : Finding) : List Char :=
  pstr "| `" ++ _escape_cell f.path ++ pstr "` | " ++ natDigits f.line ++
    pstr " | " ++ asciiUpper f.severity ++ pstr " | `" ++
    _escape_cell f.rule_id ++ pstr "` | " ++ _escape_cell f.message ++ pstr " |"

/-- One row of the severity breakdown table. -/
def severityRow (label : List Char) (n : Nat) : List Char :=
  pstr "| " ++ label ++ pstr " | " ++ natDigits n ++ pstr " |"

/-- The truncation note added when more than 40 findings exist. -/
def truncationNote (omitted : Nat) : List Char :=
  pstr "_Table truncated to first 40 findings; " ++ natDigits omitted ++
    pstr " additional finding(s) included in summary only._"

/-- The note added when fewer inline comments than findings were produced. -/
def limitNote (produced : Nat) (maxInline : Int) : List Char :=
  pstr "_Inline comments limited to " ++ natDigits produced ++
    pstr " lines (config `MAX_INLINE_COMMENTS=" ++ intDigits maxInline ++
    pstr "`)._"

/-- `MAX_TABLE_ROWS`: the fixed `max_table_rows = 40` of
`build_review_payload`. -/
def MAX_TABLE_ROWS : Nat := 40

/-- The `body_lines` list of `build_review_payload` (for the empty-findings
branch, the lines of the single body string, which joins back to it). -/
def reviewBodyLines (maxInline : Int) (findings : List Finding)
    (file_diffs : List FileDiff) : List (List Char) :=
  let changedLinesCount := (file_diffs.map fun fd => fd.changed_lines.length).sum
  if findings.isEmpty then
    [ pstr "## SieGe Gatekeeper Review", [], pstr "### Scope",
      pstr "- Files analyzed: " ++ natDigits file_diffs.length,
      pstr "- Changed lines analyzed: " ++ natDigits changedLinesCount,
      [], pstr "### Result", pstr "No issues found on changed lines." ]
  else
    let inline := _build_inline_comments findings maxInline
    [ pstr "## SieGe Gatekeeper Review", [], pstr "### Scope",
      pstr "- Files analyzed: " ++ natDigits file_diffs.length,
      pstr "- Changed lines analyzed: " ++ natDigits changedLinesCount,
      pstr "- Findings: " ++ natDigits findings.length,
      [], pstr "### Severity Breakdown",
      pstr "| Severity | Count |", pstr "| --- | ---: |",
      severityRow (pstr "HIGH") (findings.countP fun f => f.severity = pstr "high"),
      severityRow (pstr "MEDIUM") (findings.countP fun f => f.severity = pstr "medium"),
      severityRow (pstr "LOW") (findings.countP fun f => f.severity = pstr "low"),
      [], pstr "### Findings (Changed Lines Only)",
      pstr "| File | Line | Severity | Rule | Message |",
      pstr "| --- | ---: | --- | --- | --- |" ]
    ++ (findings.take MAX_TABLE_ROWS).map findingRow
    ++ (if findings.length > MAX_TABLE_ROWS then
          [[], truncationNote (findings.length - MAX_TABLE_ROWS)]
        else [])
    ++ (if findings.length > inline.length then
          [[], limitNote inline.length maxInline]
        else [])

/-- `build_review_payload` of `app/review_formatter.py`: the body string
joins `body_lines` with newlines; the inline comments are empty when
there are no findings. -/
def build_review_payload (maxInline : Int) (findings : List Finding)
    (file_diffs : List FileDiff) : List Char × List InlineComment :=
  (List.intercalate (pstr "\n") (reviewBodyLines maxInline findings file_diffs),
   if findings.isEmpty then [] else _build_inline_comments findings maxInline)

/-! ## Specification-side definitions used to state the claims -/

/-- Every hunk header that matches the pattern carries a new-file start
of at least 1 (true of every well-formed unified diff; lines that do not
match the pattern are unconstrained). -/
def headerOk (l : List Char) : Bool :=
  (hunkNewStart l).all fun n => decide (1 ≤ n)

/-- The findings selected by the `_build_inline_comments` loop (same
recursion as `buildInlineAux`, returning the findings instead of the
comments built from them). -/
def selectInlineAux (limit : Int) (seen : List (List Char × Nat × List Char))
    (count : Nat) : List Finding → List Finding
  | [] => []
  | f :: fs =>
    if inlineKey f ∈ seen then selectInlineAux limit seen count fs
    else
      if ((count : Int) + 1) ≥ limit then [f]
      else f :: selectInlineAux limit (inlineKey f :: seen) (count + 1) fs

/-- The findings whose comments `_build_inline_comments` emits. -/
def selectInline (findings : List Finding) (limit : Int) : List Finding :=
  if limit ≤ 0 then [] else selectInlineAux limit [] 0 findings

/-- Specification-side description of deduplication: keep the first
finding carrying each distinct `(path, line, rule_id)` key, in input
order, skipping keys already in `seen`. -/
def firstOccurrencesAux (seen : List (List Char × Nat × List Char)) :
    List Finding → List Finding
  | [] => []
  | f :: fs =>
    if inlineKey f ∈ seen then firstOccurrencesAux seen fs
    else f :: firstOccurrencesAux (inlineKey f :: seen) fs

/-- Specification-side description: one first-occurrence representative
per distinct `(path, line, rule_id)` key, in input order. -/
def firstOccurrences (findings : List Finding) : List Finding :=
  firstOccurrencesAux [] findings

/-- Recognizes a findings-table row of the summary body: exactly the
lines `findingRow` produces start with `| ` followed by a backtick
(scope lines start with `-`, breakdown rows with `| H`/`| M`/`| L`,
table headers with `| F`/`| S`/`| -`, notes with `_`). -/
def isTableRow (l : List Char) : Bool :=
  match l with
  | a :: b :: c :: _ => a = '|' && b = ' ' && c = Char.ofNat 96
  | _ => false

/-- The keep-condition of the `build_file_diffs` loop: a non-empty
stripped filename, a present non-empty patch body, and at least one
parsed added line. -/
def keepPayload (cf : ChangedFilePayload) : Bool :=
  !(pyStrip (cf.filename.getD [])).isEmpty &&
    match cf.patch with
    | none => false
    | some plines => !plines.isEmpty && !(parse_patch plines).isEmpty

/-- The `FileDiff` built for a kept payload entry. -/
def payloadDiff (cf : ChangedFilePayload) : FileDiff :=
  { path := pyStrip (cf.filename.getD [])
    language := detect_language (pyStrip (cf.filename.getD []))
    additions := cf.additions.getD 0
    deletions := cf.deletions.getD 0
    changed_lines := parse_patch (cf.patch.getD []) }

/-- A finding refers to a file and changed line actually present in the
analyzer input. -/
def findingInScope (file_diffs : List FileDiff) (f : Finding) : Prop :=
  ∃ fd ∈ file_diffs, ∃ cl ∈ fd.changed_lines,
    f.path = fd.path ∧ f.line = cl.number

/-! ## Lemmas about the diff parser -/

theorem pstr_plus : pstr "+" = ['+'] := rfl

theorem pstr_plus3 : pstr "+++" = ['+', '+', '+'] := rfl

theorem pstr_minus : pstr "-" = ['-'] := rfl

theorem pstr_minus3 : pstr "---" = ['-', '-', '-'] := rfl

theorem pstr_backslash : pstr "\\" = ['\\'] := rfl

theorem pstr_atat : pstr "@@" = ['@', '@'] := rfl

theorem stripL_eq_append {p l r : List Char} (h : stripL p l = some r) :
    l = p ++ r := by
  induction p generalizing l with
  | nil =>
    simp only [stripL, Option.some.injEq] at h
    simp [h]
  | cons a ps ih =>
    cases l with
    | nil => simp [stripL] at h
    | cons c cs =>
      simp only [stripL] at h
      split at h
      · next hac => subst hac; simpa using ih h
      · exact absurd h (by simp)

theorem hunkNewStart_marked {l : List Char} {n : Nat}
    (h : hunkNewStart l = some n) : isHunkMarked l = true := by
  unfold hunkNewStart at h
  cases hs : stripL (pstr "@@ -") l with
  | none => rw [hs] at h; exact absurd h (by simp)
  | some r =>
    have hl := stripL_eq_append hs
    subst hl
    rfl

theorem added_shape {l : List Char} (h : isAddedB l = true) :
    ∃ t, l = '+' :: t := by
  rcases l with _ | ⟨c, t⟩
  · simp [isAddedB, pstr_plus, List.isPrefixOf] at h
  · simp only [isAddedB, pstr_plus, List.isPrefixOf, Bool.and_eq_true,
      beq_iff_eq] at h
    exact ⟨t, by rw [h.1.1]⟩

theorem marked_shape {l : List Char} (h : isHunkMarked l = true) :
    ∃ t, l = '@' :: '@' :: t := by
  rcases l with _ | ⟨c, _ | ⟨d, t⟩⟩ <;>
    simp only [isHunkMarked, pstr_atat, List.isPrefixOf, Bool.and_eq_true,
      beq_iff_eq] at h
  · exact absurd h (by simp)
  · exact absurd h.2 (by simp)
  · exact ⟨t, by rw [← h.1, ← h.2.1]⟩

theorem removed_shape {l : List Char} (h : isRemovedB l = true) :
    ∃ t, l = '-' :: t := by
  rcases l with _ | ⟨c, t⟩
  · simp [isRemovedB, pstr_minus, List.isPrefixOf] at h
  · simp only [isRemovedB, pstr_minus, List.isPrefixOf, Bool.and_eq_true,
      beq_iff_eq] at h
    exact ⟨t, by rw [h.1.1]⟩

theorem backslash_shape {l : List Char} (h : (pstr "\\").isPrefixOf l = true) :
    ∃ t, l = '\\' :: t := by
  rcases l with _ | ⟨c, t⟩
  · simp [pstr_backslash, List.isPrefixOf] at h
  · simp only [pstr_backslash, List.isPrefixOf, Bool.and_eq_true,
      beq_iff_eq] at h
    exact ⟨t, by rw [h.1]⟩

theorem marked_not_added {l : List Char} (h : isHunkMarked l = true) :
    isAddedB l = false := by
  obtain ⟨t, rfl⟩ := marked_shape h
  rfl

theorem removed_not_added {l : List Char} (h : isRemovedB l = true) :
    isAddedB l = false := by
  obtain ⟨t, rfl⟩ := removed_shape h
  rfl

theorem backslash_not_added {l : List Char} (h : (pstr "\\").isPrefixOf l = true) :
    isAddedB l = false := by
  obtain ⟨t, rfl⟩ := backslash_shape h
  rfl

theorem added_not_marked {l : List Char} (h : isAddedB l = true) :
    isHunkMarked l = false := by
  obtain ⟨t, rfl⟩ := added_shape h
  rfl

theorem added_no_hunkNewStart {l : List Char} (h : isAddedB l = true) :
    hunkNewStart l = none := by
  cases hn : hunkNewStart l with
  | none => rfl
  | some n => rw [marked_not_added (hunkNewStart_marked hn)] at h; exact absurd h (by simp)

theorem parsePatchAux_all_added (body : List (List Char)) :
    ∀ c : Nat, (∀ l ∈ body, isAddedB l = true) →
    parsePatchAux body c =
      List.zipWith (fun n l => ChangedLine.mk n (l.drop 1))
        (List.range' c body.length) body := by
  induction body with
  | nil => intro c _; rfl
  | cons l rest ih =>
    intro c h
    have hl : isAddedB l = true := h l (List.mem_cons_self l rest)
    have hm : isHunkMarked l = false := added_not_marked hl
    simp only [parsePatchAux, hm, Bool.false_eq_true, if_false, hl, if_true,
      List.length_cons, List.range', List.zipWith_cons_cons]
    exact congrArg _ (ih (c + 1) fun x hx => h x (List.mem_cons_of_mem l hx))

/-- **C1.** A patch consisting of exactly one matching hunk header
`@@ -a[,b] +N[,M] @@` (capture group `N`) followed by `K` added lines
(each beginning with `+` and not `+++`) parses to exactly `K`
`ChangedLine` records numbered `N, N+1, …, N+K-1` in order, each
carrying its source line without the leading `+`. -/
theorem C1_single_hunk_run (header : List Char) (N : Nat)
    (body : List (List Char)) (hh : hunkNewStart header = some N)
    (hb : ∀ l ∈ body, isAddedB l = true) :
    parse_patch (header :: body) =
      List.zipWith (fun n l => ChangedLine.mk n (l.drop 1))
        (List.range' N body.length) body := by
  have hm : isHunkMarked header = true := hunkNewStart_marked hh
  unfold parse_patch
  simp only [parsePatchAux, hm, if_true, hh]
  exact parsePatchAux_all_added body N hb

/-- Witness for C1 at a concrete two-line patch. -/
theorem C1_single_hunk_run_witness :
    hunkNewStart (pstr "@@ -1 +5 @@") = some 5 ∧
    (∀ l ∈ [pstr "+hello", pstr "+world()"], isAddedB l = true) ∧
    parse_patch [pstr "@@ -1 +5 @@", pstr "+hello", pstr "+world()"] =
      List.zipWith (fun n l => ChangedLine.mk n (l.drop 1))
        (List.range' 5 2) [pstr "+hello", pstr "+world()"] :=
  ⟨by decide, by decide,
    C1_single_hunk_run (pstr "@@ -1 +5 @@") 5 [pstr "+hello", pstr "+world()"]
      (by decide) (by decide)⟩

/-- **C2, counterexample.** A later hunk header may reset the cursor
below an already emitted line number, so the emitted numbers of a
malformed (out-of-order) patch are not non-decreasing. -/
theorem C2_counterexample :
    ¬ (((parse_patch
          [pstr "@@ -1 +5 @@", pstr "+a", pstr "@@ -1 +2 @@", pstr "+b"]).map
            ChangedLine.number).Pairwise (· ≤ ·)) := by
  decide

theorem parsePatchAux_noReset (lines : List (List Char)) :
    ∀ c : Nat, (∀ l ∈ lines, (hunkNewStart l).isSome = false) →
    (∀ x ∈ parsePatchAux lines c, c ≤ x.number) ∧
      ((parsePatchAux lines c).map ChangedLine.number).Pairwise (· < ·) := by
  induction lines with
  | nil => intro c _; exact ⟨by simp [parsePatchAux], by simp [parsePatchAux]⟩
  | cons l rest ih =>
    intro c h
    have hrest : ∀ x ∈ rest, (hunkNewStart x).isSome = false :=
      fun x hx => h x (List.mem_cons_of_mem l hx)
    have hl : hunkNewStart l = none := by
      have := h l (List.mem_cons_self l rest)
      cases hn : hunkNewStart l with
      | none => rfl
      | some n => rw [hn] at this; exact absurd this (by simp)
    by_cases hm : isHunkMarked l = true
    · simp only [parsePatchAux, hm, if_true, hl]
      exact ih c hrest
    · have hm' : isHunkMarked l = false := by simpa using hm
      by_cases hadd : isAddedB l = true
      · simp only [parsePatchAux, hm', Bool.false_eq_true, if_false, hadd,
          if_true, List.map_cons, List.pairwise_cons]
        refine ⟨?_, ?_, ?_⟩
        · intro x hx
          rcases List.mem_cons.mp hx with hx | hx
          · rw [hx]
          · exact Nat.le_of_succ_le ((ih (c + 1) hrest).1 x hx)
        · intro y hy
          obtain ⟨x, hx, rfl⟩ := List.mem_map.mp hy
          exact (ih (c + 1) hrest).1 x hx
        · exact (ih (c + 1) hrest).2
      · have hadd' : isAddedB l = false := by simpa using hadd
        simp only [parsePatchAux, hm', Bool.false_eq_true, if_false, hadd']
        split
        · exact ih c hrest
        · split
          · exact ih c hrest
          · refine ⟨fun x hx => Nat.le_of_succ_le ((ih (c + 1) hrest).1 x hx),
              (ih (c + 1) hrest).2⟩

/-- **C2, amended.** Within any stretch of a patch containing no
successfully matching hunk header (in particular within a single hunk),
and from any cursor value, the emitted line numbers are strictly
increasing; across distinct hunks a malformed header order can break
this (see the counterexample). -/
theorem C2_amended_strictly_increasing_within_hunk
    (lines : List (List Char)) (c : Nat)
    (h : ∀ l ∈ lines, (hunkNewStart l).isSome = false) :
    ((parsePatchAux lines c).map ChangedLine.number).Pairwise (· < ·) :=
  (parsePatchAux_noReset lines c h).2

/-- Witness for the amended C2 on a concrete hunk body. -/
theorem C2_amended_witness :
    (∀ l ∈ [pstr "+a", pstr " ctx", pstr "-gone", pstr "+b"],
      (hunkNewStart l).isSome = false) ∧
    ((parsePatchAux [pstr "+a", pstr " ctx", pstr "-gone", pstr "+b"] 7).map
      ChangedLine.number).Pairwise (· < ·) :=
  ⟨by decide,
    C2_amended_strictly_increasing_within_hunk
      [pstr "+a", pstr " ctx", pstr "-gone", pstr "+b"] 7 (by decide)⟩

/-- **C7, counterexample.** An added line before any hunk header is
emitted with the defensive default line number 0, which is not positive. -/
theorem C7_counterexample :
    ¬ (∀ cl ∈ parse_patch [pstr "+x"], 0 < cl.number) := by
  decide

theorem parsePatchAux_pos (lines : List (List Char)) :
    ∀ c : Nat, 1 ≤ c → (∀ l ∈ lines, headerOk l = true) →
    ∀ x ∈ parsePatchAux lines c, 1 ≤ x.number := by
  induction lines with
  | nil => intro c _ _ x hx; simp [parsePatchAux] at hx
  | cons l rest ih =>
    intro c hc h
    have hrest : ∀ x ∈ rest, headerOk x = true :=
      fun x hx => h x (List.mem_cons_of_mem l hx)
    by_cases hm : isHunkMarked l = true
    · cases hn : hunkNewStart l with
      | some n =>
        have hok := h l (List.mem_cons_self l rest)
        rw [headerOk, hn] at hok
        simp only [Option.all_some, decide_eq_true_eq] at hok
        simp only [parsePatchAux, hm, if_true, hn]
        exact ih n hok hrest
      | none =>
        simp only [parsePatchAux, hm, if_true, hn]
        exact ih c hc hrest
    · have hm' : isHunkMarked l = false := by simpa using hm
      by_cases hadd : isAddedB l = true
      · simp only [parsePatchAux, hm', Bool.false_eq_true, if_false, hadd,
          if_true]
        intro x hx
        rcases List.mem_cons.mp hx with hx | hx
        · rw [hx]; exact hc
        · exact ih (c + 1) (Nat.le_succ_of_le hc) hrest x hx
      · have hadd' : isAddedB l = false := by simpa using hadd
        simp only [parsePatchAux, hm', Bool.false_eq_true, if_false, hadd']
        split
        · exact ih c hc hrest
        · split
          · exact ih c hc hrest
          · exact ih (c + 1) (Nat.le_succ_of_le hc) hrest

theorem parsePatchAux_pos_after_header (lines : List (List Char)) :
    ∀ c : Nat, (∀ l ∈ lines, headerOk l = true) →
    ((lines.takeWhile fun l => !(hunkNewStart l).isSome).all
      fun l => !isAddedB l) = true →
    ∀ x ∈ parsePatchAux lines c, 1 ≤ x.number := by
  induction lines with
  | nil => intro c _ _ x hx; simp [parsePatchAux] at hx
  | cons l rest ih =>
    intro c h1 h2
    have hrest : ∀ x ∈ rest, headerOk x = true :=
      fun x hx => h1 x (List.mem_cons_of_mem l hx)
    cases hn : hunkNewStart l with
    | some n =>
      have hm : isHunkMarked l = true := hunkNewStart_marked hn
      have hok := h1 l (List.mem_cons_self l rest)
      rw [headerOk, hn] at hok
      simp only [Option.all_some, decide_eq_true_eq] at hok
      simp only [parsePatchAux, hm, if_true, hn]
      exact parsePatchAux_pos rest n hok hrest
    | none =>
      have htw : (List.takeWhile (fun l => !(hunkNewStart l).isSome)
          (l :: rest)) = l :: rest.takeWhile (fun l => !(hunkNewStart l).isSome) := by
        rw [List.takeWhile_cons_of_pos]
        simp [hn]
      rw [htw, List.all_cons, Bool.and_eq_true] at h2
      have hadd' : isAddedB l = false := by simpa using h2.1
      by_cases hm : isHunkMarked l = true
      · simp only [parsePatchAux, hm, if_true, hn]
        exact ih c hrest h2.2
      · have hm' : isHunkMarked l = false := by simpa using hm
        simp only [parsePatchAux, hm', Bool.false_eq_true, if_false, hadd']
        split
        · exact ih c hrest h2.2
        · split
          · exact ih c hrest h2.2
          · exact ih (c + 1) hrest h2.2

/-- **C7, amended.** Every `ChangedLine` produced by `parse_patch` has a
positive (1-based) line number, provided every matching hunk header
carries a new-file start of at least 1 and no added line precedes the
first matching hunk header; an added line before any hunk header instead
receives the defensive default number 0 (see the counterexample). -/
theorem C7_amended_positive_numbers (patch : List (List Char))
    (h1 : ∀ l ∈ patch, headerOk l = true)
    (h2 : ((patch.takeWhile fun l => !(hunkNewStart l).isSome).all
      fun l => !isAddedB l) = true) :
    ∀ cl ∈ parse_patch patch, 0 < cl.number :=
  parsePatchAux_pos_after_header patch 0 h1 h2

/-- Witness for the amended C7 on a concrete patch. -/
theorem C7_amended_witness :
    (∀ l ∈ [pstr "@@ -1 +3 @@", pstr "+a", pstr " c", pstr "+b"],
      headerOk l = true) ∧
    ((([pstr "@@ -1 +3 @@", pstr "+a", pstr " c", pstr "+b"].takeWhile
        fun l => !(hunkNewStart l).isSome).all fun l => !isAddedB l) = true) ∧
    ∀ cl ∈ parse_patch [pstr "@@ -1 +3 @@", pstr "+a", pstr " c", pstr "+b"],
      0 < cl.number :=
  ⟨by decide, by decide,
    C7_amended_positive_numbers
      [pstr "@@ -1 +3 @@", pstr "+a", pstr " c", pstr "+b"]
      (by decide) (by decide)⟩

theorem parsePatchAux_contents (lines : List (List Char)) :
    ∀ c : Nat, (parsePatchAux lines c).map ChangedLine.content =
      (lines.filter isAddedB).map (List.drop 1) := by
  induction lines with
  | nil => intro c; rfl
  | cons l rest ih =>
    intro c
    by_cases hm : isHunkMarked l = true
    · have ha := marked_not_added hm
      cases hn : hunkNewStart l with
      | some n =>
        simp only [parsePatchAux, hm, if_true, hn, List.filter_cons, ha,
          Bool.false_eq_true, if_false]
        exact ih n
      | none =>
        simp only [parsePatchAux, hm, if_true, hn, List.filter_cons, ha,
          Bool.false_eq_true, if_false]
        exact ih c
    · have hm' : isHunkMarked l = false := by simpa using hm
      by_cases hadd : isAddedB l = true
      · simp only [parsePatchAux, hm', Bool.false_eq_true, if_false, hadd,
          if_true, List.filter_cons, List.map_cons]
        exact congrArg _ (ih (c + 1))
      · have hadd' : isAddedB l = false := by simpa using hadd
        simp only [parsePatchAux, hm', Bool.false_eq_true, if_false, hadd',
          List.filter_cons]
        split
        · exact ih c
        · split
          · exact ih c
          · exact ih (c + 1)

/-! ## Lemmas about the aggregator order -/

theorem char_eq_of_toNat_eq {a b : Char} (h : a.toNat = b.toNat) : a = b :=
  Char.eq_of_val_eq (UInt32.toNat.inj h)

theorem listLt_irrefl : ∀ a : List Char, listLt a a = false := by
  intro a
  induction a with
  | nil => rfl
  | cons x as ih => simp [listLt, ih]

theorem listLt_trans :
    ∀ a b c : List Char, listLt a b = true → listLt b c = true →
      listLt a c = true := by
  intro a
  induction a with
  | nil =>
    intro b c hab hbc
    cases b with
    | nil => simp [listLt] at hab
    | cons y bs =>
      cases c with
      | nil => simp [listLt] at hbc
      | cons z cs => simp [listLt]
  | cons x as ih =>
    intro b c hab hbc
    cases b with
    | nil => simp [listLt] at hab
    | cons y bs =>
      cases c with
      | nil => simp [listLt] at hbc
      | cons z cs =>
        simp only [listLt] at hab hbc ⊢
        rcases Nat.lt_trichotomy x.toNat y.toNat with h1 | h1 | h1
        · rcases Nat.lt_trichotomy y.toNat z.toNat with h2 | h2 | h2
          · rw [if_pos (by omega)]
          · rw [if_pos (by omega)]
          · rw [if_neg (by omega), if_pos (by omega)] at hbc
            exact absurd hbc (by simp)
        · rcases Nat.lt_trichotomy y.toNat z.toNat with h2 | h2 | h2
          · rw [if_pos (by omega)]
          · rw [if_neg (by omega), if_neg (by omega)] at hab hbc ⊢
            exact ih bs cs hab hbc
          · rw [if_neg (by omega), if_pos (by omega)] at hbc
            exact absurd hbc (by simp)
        · rw [if_neg (by omega), if_pos (by omega)] at hab
          exact absurd hab (by simp)

theorem listLt_connex :
    ∀ a b : List Char, listLt a b = false → listLt b a = false → a = b := by
  intro a
  induction a with
  | nil =>
    intro b hab _
    cases b with
    | nil => rfl
    | cons y bs => simp [listLt] at hab
  | cons x as ih =>
    intro b hab hba
    cases b with
    | nil => simp [listLt] at hba
    | cons y bs =>
      simp only [listLt] at hab hba
      rcases Nat.lt_trichotomy x.toNat y.toNat with h1 | h1 | h1
      · rw [if_pos (by omega)] at hab
        exact absurd hab (by simp)
      · rw [if_neg (by omega), if_neg (by omega)] at hab hba
        rw [char_eq_of_toNat_eq h1, ih bs hab hba]
      · rw [if_pos (by omega)] at hba
        exact absurd hba (by simp)

theorem natLtB_irrefl : ∀ a : Nat, natLtB a a = false := by
  intro a; simp [natLtB]

theorem natLtB_trans :
    ∀ a b c : Nat, natLtB a b = true → natLtB b c = true →
      natLtB a c = true := by
  intro a b c hab hbc
  simp only [natLtB, decide_eq_true_eq] at hab hbc ⊢
  omega

theorem natLtB_connex :
    ∀ a b : Nat, natLtB a b = false → natLtB b a = false → a = b := by
  intro a b hab hba
  simp only [natLtB, decide_eq_false_iff_not] at hab hba
  omega

theorem pairLt_irrefl {α β : Type} {ltA : α → α → Bool} {ltB : β → β → Bool}
    (hA : ∀ a, ltA a a = false) (hB : ∀ b, ltB b b = false) :
    ∀ x : α × β, pairLt ltA ltB x x = false := by
  rintro ⟨a, b⟩
  simp [pairLt, hA, hB]

theorem pairLt_connex {α β : Type} {ltA : α → α → Bool} {ltB : β → β → Bool}
    (hA : ∀ a b, ltA a b = false → ltA b a = false → a = b)
    (hB : ∀ a b, ltB a b = false → ltB b a = false → a = b) :
    ∀ x y : α × β, pairLt ltA ltB x y = false → pairLt ltA ltB y x = false →
      x = y := by
  rintro ⟨a1, b1⟩ ⟨a2, b2⟩ h1 h2
  simp only [pairLt] at h1 h2
  by_cases hl : ltA a1 a2 = true
  · rw [if_pos hl] at h1
    exact absurd h1 (by simp)
  · have hl' : ltA a1 a2 = false := by simpa using hl
    by_cases hg : ltA a2 a1 = true
    · rw [if_pos hg] at h2
      exact absurd h2 (by simp)
    · have hg' : ltA a2 a1 = false := by simpa using hg
      rw [if_neg (by simp [hl']), if_neg (by simp [hg'])] at h1
      rw [if_neg (by simp [hg']), if_neg (by simp [hl'])] at h2
      rw [hA a1 a2 hl' hg', hB b1 b2 h1 h2]

theorem pairLt_trans {α β : Type} {ltA : α → α → Bool} {ltB : β → β → Bool}
    (hAt : ∀ a b c, ltA a b = true → ltA b c = true → ltA a c = true)
    (hAc : ∀ a b, ltA a b = false → ltA b a = false → a = b)
    (hBt : ∀ a b c, ltB a b = true → ltB b c = true → ltB a c = true) :
    ∀ x y z : α × β, pairLt ltA ltB x y = true → pairLt ltA ltB y z = true →
      pairLt ltA ltB x z = true := by
  rintro ⟨a1, b1⟩ ⟨a2, b2⟩ ⟨a3, b3⟩ h1 h2
  simp only [pairLt] at h1 h2 ⊢
  by_cases h12 : ltA a1 a2 = true
  · by_cases h23 : ltA a2 a3 = true
    · rw [if_pos (hAt _ _ _ h12 h23)]
    · have h23' : ltA a2 a3 = false := by simpa using h23
      by_cases h32 : ltA a3 a2 = true
      · rw [if_neg (by simp [h23']), if_pos h32] at h2
        exact absurd h2 (by simp)
      · have h32' : ltA a3 a2 = false := by simpa using h32
        have ha : a2 = a3 := hAc _ _ h23' h32'
        subst ha
        rw [if_pos h12]
  · have h12' : ltA a1 a2 = false := by simpa using h12
    by_cases h21 : ltA a2 a1 = true
    · rw [if_neg (by simp [h12']), if_pos h21] at h1
      exact absurd h1 (by simp)
    · have h21' : ltA a2 a1 = false := by simpa using h21
      have ha : a1 = a2 := hAc _ _ h12' h21'
      subst ha
      rw [if_neg (by simp [h12']), if_neg (by simp [h21'])] at h1
      by_cases h13 : ltA a1 a3 = true
      · rw [if_pos h13]
      · have h13' : ltA a1 a3 = false := by simpa using h13
        by_cases h31 : ltA a3 a1 = true
        · rw [if_neg (by simp [h13']), if_pos h31] at h2
          exact absurd h2 (by simp)
        · have h31' : ltA a3 a1 = false := by simpa using h31
          have ha : a1 = a3 := hAc _ _ h13' h31'
          subst ha
          rw [if_neg (by simp [h13']), if_neg (by simp [h31'])] at h2 ⊢
          exact hBt _ _ _ h1 h2

theorem keyLt_irrefl : ∀ x, keyLt x x = false :=
  pairLt_irrefl natLtB_irrefl
    (pairLt_irrefl listLt_irrefl (pairLt_irrefl natLtB_irrefl listLt_irrefl))

theorem keyLt_trans :
    ∀ x y z, keyLt x y = true → keyLt y z = true → keyLt x z = true :=
  pairLt_trans natLtB_trans natLtB_connex
    (pairLt_trans listLt_trans listLt_connex
      (pairLt_trans natLtB_trans natLtB_connex listLt_trans))

theorem keyLt_connex :
    ∀ x y, keyLt x y = false → keyLt y x = false → x = y :=
  pairLt_connex natLtB_connex
    (pairLt_connex listLt_connex (pairLt_connex natLtB_connex listLt_connex))

theorem findingLe_total : ∀ a b, (findingLe a b || findingLe b a) = true := by
  intro a b
  unfold findingLe
  cases hb : keyLt (findingKey b) (findingKey a) with
  | false => simp
  | true =>
    cases ha : keyLt (findingKey a) (findingKey b) with
    | false => simp
    | true =>
      have := keyLt_trans _ _ _ hb ha
      rw [keyLt_irrefl] at this
      exact absurd this (by simp)

theorem findingLe_trans :
    ∀ a b c, findingLe a b = true → findingLe b c = true →
      findingLe a c = true := by
  intro a b c h1 h2
  unfold findingLe at h1 h2 ⊢
  rw [Bool.not_eq_true'] at h1 h2 ⊢
  cases hca : keyLt (findingKey c) (findingKey a) with
  | false => rfl
  | true =>
    by_cases hbc : keyLt (findingKey b) (findingKey c) = true
    · have := keyLt_trans _ _ _ hbc hca
      rw [h1] at this
      exact absurd this (by simp)
    · have hbc' : keyLt (findingKey b) (findingKey c) = false := by simpa using hbc
      have heq := keyLt_connex _ _ hbc' h2
      rw [heq] at h1
      rw [h1] at hca
      exact absurd hca (by simp)

/-- **C3.** For any list of `FileDiff`, `run_all_analyzers` returns a
permutation of the concatenated analyzer outputs (nothing dropped),
pairwise sorted by the total order on keys
`(severity rank, path, line, rule_id)` — with ranks high = 0,
medium = 1, low = 2 and 99 for any unrecognized severity — so that any
finding `A` placed before `B` satisfies `key A ≤ key B`. -/
theorem C3_aggregator_sorted_permutation (file_diffs : List FileDiff) :
    (run_all_analyzers file_diffs).Perm
      (lint_findings file_diffs ++ python_security_findings file_diffs ++
        complexity_findings file_diffs) ∧
    (run_all_analyzers file_diffs).Pairwise (fun a b => findingLe a b = true) ∧
    severityRank (pstr "high") = 0 ∧ severityRank (pstr "medium") = 1 ∧
    severityRank (pstr "low") = 2 ∧
    ∀ s : List Char,
      s ∉ [pstr "high", pstr "medium", pstr "low"] → severityRank s = 99 := by
  refine ⟨List.mergeSort_perm _ _,
    List.sorted_mergeSort (fun a b c => findingLe_trans a b c)
      (fun a b => findingLe_total a b) _, by decide, by decide, by decide, ?_⟩
  intro s hs
  simp only [List.mem_cons, List.mem_singleton, not_or] at hs
  have b1 : (s == pstr "high") = false := by simp [beq_iff_eq]; exact hs.1
  have b2 : (s == pstr "medium") = false := by simp [beq_iff_eq]; exact hs.2.1
  have b3 : (s == pstr "low") = false := by simp [beq_iff_eq]; exact hs.2.2.1
  simp [severityRank, SEVERITY_RANK, List.lookup, b1, b2, b3]

/-- Witness for C3 at a concrete input (one Python file with two changed
lines; the aggregator sorts the three resulting findings by severity
rank then line), also instantiating the unknown-severity rank at a
concrete unlisted severity string. -/
theorem C3_aggregator_sorted_permutation_witness :
    severityRank (pstr "critical") = 99 ∧
    (run_all_analyzers
      [⟨pstr "a.py", pstr "python", 2, 0,
        [⟨4, pstr "print(1) "⟩, ⟨9, pstr "eval(x)"⟩]⟩]).Pairwise
      (fun a b => findingLe a b = true) :=
  ⟨(C3_aggregator_sorted_permutation []).2.2.2.2.2 (pstr "critical")
      (by decide),
    (C3_aggregator_sorted_permutation
      [⟨pstr "a.py", pstr "python", 2, 0,
        [⟨4, pstr "print(1) "⟩, ⟨9, pstr "eval(x)"⟩]⟩]).2.1⟩

/-! ## Lemmas about the analyzers and total-function behaviour -/

theorem mem_ite_singleton {α : Type} {c : Prop} [Decidable c] {x f : α}
    (h : f ∈ (if c then [x] else [])) : f = x := by
  split at h
  · simpa using h
  · simp at h

theorem lookup_mem_snd {α β : Type} [BEq α] :
    ∀ (l : List (α × β)) (k : α) (v : β), l.lookup k = some v →
      v ∈ l.map Prod.snd := by
  intro l
  induction l with
  | nil => intro k v h; simp [List.lookup] at h
  | cons p rest ih =>
    intro k v h
    rw [List.lookup] at h
    split at h
    · simp only [Option.some.injEq] at h
      simp [h]
    · simp [ih k v h]

theorem detect_language_total (p : List Char) :
    detect_language p = pstr "text" ∨
      detect_language p ∈ LANGUAGE_BY_EXTENSION.map Prod.snd := by
  unfold detect_language
  cases h : LANGUAGE_BY_EXTENSION.lookup (splitextExt (p.map Char.toLower)) with
  | none => left; rfl
  | some v => right; simpa using lookup_mem_snd _ _ _ h

theorem lintLine_fields (fd : FileDiff) (cl : ChangedLine) (f : Finding)
    (h : f ∈ lintLine fd cl) : f.path = fd.path ∧ f.line = cl.number := by
  simp only [lintLine, List.mem_append] at h
  rcases h with ((((h | h) | h) | h) | h)
  · rw [mem_ite_singleton h]; exact ⟨rfl, rfl⟩
  · rw [mem_ite_singleton h]; exact ⟨rfl, rfl⟩
  · rw [mem_ite_singleton h]; exact ⟨rfl, rfl⟩
  · split at h
    · rcases List.mem_append.mp h with h | h
      · rw [mem_ite_singleton h]; exact ⟨rfl, rfl⟩
      · rw [mem_ite_singleton h]; exact ⟨rfl, rfl⟩
    · simp at h
  · split at h
    · rw [mem_ite_singleton h]; exact ⟨rfl, rfl⟩
    · simp at h

theorem securityLine_fields (fd : FileDiff) (cl : ChangedLine) (f : Finding)
    (h : f ∈ securityLine fd cl) : f.path = fd.path ∧ f.line = cl.number := by
  simp only [securityLine, List.mem_append] at h
  rcases h with ((((h | h) | h) | h) | h) <;>
    (rw [mem_ite_singleton h]; exact ⟨rfl, rfl⟩)

theorem complexityLine_fields (fd : FileDiff) (cl : ChangedLine) (f : Finding)
    (h : f ∈ complexityLine fd cl) : f.path = fd.path ∧ f.line = cl.number := by
  simp only [complexityLine] at h
  split at h
  · simp at h
  · simp only [List.mem_append] at h
    rcases h with ((h | h) | h) <;>
      (rw [mem_ite_singleton h]; exact ⟨rfl, rfl⟩)

theorem lint_findings_scope (fds : List FileDiff) (f : Finding)
    (h : f ∈ lint_findings fds) : findingInScope fds f := by
  simp only [lint_findings, List.mem_flatMap] at h
  obtain ⟨fd, hfd, cl, hcl, h⟩ := h
  obtain ⟨hp, hl⟩ := lintLine_fields fd cl f h
  exact ⟨fd, hfd, cl, hcl, hp, hl⟩

theorem python_security_findings_scope (fds : List FileDiff) (f : Finding)
    (h : f ∈ python_security_findings fds) : findingInScope fds f := by
  simp only [python_security_findings, List.mem_flatMap] at h
  obtain ⟨fd, hfd, h⟩ := h
  split at h
  · obtain ⟨cl, hcl, h⟩ := List.mem_flatMap.mp h
    obtain ⟨hp, hl⟩ := securityLine_fields fd cl f h
    exact ⟨fd, hfd, cl, hcl, hp, hl⟩
  · simp at h

theorem complexity_findings_scope (fds : List FileDiff) (f : Finding)
    (h : f ∈ complexity_findings fds) : findingInScope fds f := by
  simp only [complexity_findings, List.mem_flatMap] at h
  obtain ⟨fd, hfd, cl, hcl, h⟩ := h
  obtain ⟨hp, hl⟩ := complexityLine_fields fd cl f h
  exact ⟨fd, hfd, cl, hcl, hp, hl⟩

theorem run_all_analyzers_scope (fds : List FileDiff) (f : Finding)
    (h : f ∈ run_all_analyzers fds) : findingInScope fds f := by
  rw [run_all_analyzers, List.mem_mergeSort] at h
  rcases List.mem_append.mp h with h | h
  · rcases List.mem_append.mp h with h | h
    · exact lint_findings_scope fds f h
    · exact python_security_findings_scope fds f h
  · exact complexity_findings_scope fds f h

theorem buildInlineAux_length_le (limit : Int) :
    ∀ (fs : List Finding) (seen : List (List Char × Nat × List Char))
      (count : Nat),
      (buildInlineAux limit seen count fs).length ≤ fs.length := by
  intro fs
  induction fs with
  | nil => intro seen count; simp [buildInlineAux]
  | cons f rest ih =>
    intro seen count
    simp only [buildInlineAux]
    split
    · exact Nat.le_succ_of_le (ih seen count)
    · split
      · simp
      · simpa using ih (inlineKey f :: seen) (count + 1)

/-- **C5.** The core functions are total, degrading rather than failing:
`parse_patch` emits, on any input (malformed included), exactly one
record per added line (its content without the leading `+`), and nothing
else; `detect_language` always answers, falling back to `"text"`; each
analyzer, and the aggregator, only ever produce findings referring to a
file and changed line of their input; and the payload builder returns at
most one inline comment per finding. -/
theorem C5_core_total :
    (∀ patch : List (List Char),
      (parse_patch patch).map ChangedLine.content =
        (patch.filter isAddedB).map (List.drop 1)) ∧
    (∀ p : List Char, detect_language p = pstr "text" ∨
      detect_language p ∈ LANGUAGE_BY_EXTENSION.map Prod.snd) ∧
    (∀ (fds : List FileDiff) (f : Finding),
      f ∈ lint_findings fds → findingInScope fds f) ∧
    (∀ (fds : List FileDiff) (f : Finding),
      f ∈ python_security_findings fds → findingInScope fds f) ∧
    (∀ (fds : List FileDiff) (f : Finding),
      f ∈ complexity_findings fds → findingInScope fds f) ∧
    (∀ (fds : List FileDiff) (f : Finding),
      f ∈ run_all_analyzers fds → findingInScope fds f) ∧
    (∀ (maxInline : Int) (findings : List Finding) (fds : List FileDiff),
      (build_review_payload maxInline findings fds).2.length ≤
        findings.length) := by
  refine ⟨fun patch => parsePatchAux_contents patch 0, detect_language_total,
    lint_findings_scope, python_security_findings_scope,
    complexity_findings_scope, run_all_analyzers_scope, ?_⟩
  intro maxInline findings fds
  unfold build_review_payload
  split
  · simp
  · unfold _build_inline_comments
    split
    · simp
    · exact buildInlineAux_length_le maxInline findings [] 0

/-- Witness for C5: its analyzer-scope implications instantiated at a
concrete Python file with a trailing-whitespace `eval` line and a deeply
nested line, for each analyzer and for the aggregator. -/
theorem C5_core_total_witness :
    findingInScope
      [⟨pstr "a.py", pstr "python", 2, 0,
        [⟨3, pstr "x = eval(y) "⟩, ⟨10, pstr "                if x:"⟩]⟩]
      ⟨pstr "a.py", 3, pstr "low", pstr "TRAILING_WHITESPACE",
        pstr "Line has trailing whitespace.", pstr "x = eval(y)"⟩ ∧
    findingInScope
      [⟨pstr "a.py", pstr "python", 2, 0,
        [⟨3, pstr "x = eval(y) "⟩, ⟨10, pstr "                if x:"⟩]⟩]
      ⟨pstr "a.py", 3, pstr "high", pstr "PY_EVAL_USAGE",
        pstr "Avoid `eval()` on changed lines; use safer parsing.",
        pstr "x = eval(y)"⟩ ∧
    findingInScope
      [⟨pstr "a.py", pstr "python", 2, 0,
        [⟨3, pstr "x = eval(y) "⟩, ⟨10, pstr "                if x:"⟩]⟩]
      ⟨pstr "a.py", 10, pstr "low", pstr "DEEP_NESTING",
        pstr "Changed control-flow line appears deeply nested; consider refactoring.",
        pstr "if x:"⟩ ∧
    findingInScope
      [⟨pstr "a.py", pstr "python", 2, 0,
        [⟨3, pstr "x = eval(y) "⟩, ⟨10, pstr "                if x:"⟩]⟩]
      ⟨pstr "a.py", 3, pstr "high", pstr "PY_EVAL_USAGE",
        pstr "Avoid `eval()` on changed lines; use safer parsing.",
        pstr "x = eval(y)"⟩ :=
  ⟨C5_core_total.2.2.1 _ _ (by decide),
    C5_core_total.2.2.2.1 _ _ (by decide),
    C5_core_total.2.2.2.2.1 _ _ (by decide),
    C5_core_total.2.2.2.2.2.1 _ _ (List.mem_mergeSort.mpr (by decide))⟩

/-! ## Lemmas about inline comment deduplication -/

theorem buildInlineAux_eq_map (limit : Int) :
    ∀ (fs : List Finding) (seen : List (List Char × Nat × List Char))
      (count : Nat),
      buildInlineAux limit seen count fs =
        (selectInlineAux limit seen count fs).map mkComment := by
  intro fs
  induction fs with
  | nil => intro seen count; rfl
  | cons f rest ih =>
    intro seen count
    simp only [buildInlineAux, selectInlineAux]
    split
    · exact ih _ _
    · split
      · rfl
      · simp [ih]

theorem selectInlineAux_keys (limit : Int) :
    ∀ (fs : List Finding) (seen : List (List Char × Nat × List Char))
      (count : Nat),
      ((selectInlineAux limit seen count fs).map inlineKey).Pairwise (· ≠ ·) ∧
      ∀ k ∈ (selectInlineAux limit seen count fs).map inlineKey, k ∉ seen := by
  intro fs
  induction fs with
  | nil =>
    intro seen count
    exact ⟨by simp [selectInlineAux], by simp [selectInlineAux]⟩
  | cons f rest ih =>
    intro seen count
    simp only [selectInlineAux]
    split
    · exact ih seen count
    · next hnot =>
      split
      · refine ⟨by simp, ?_⟩
        intro k hk
        simp only [List.map_cons, List.map_nil, List.mem_singleton] at hk
        rw [hk]
        exact hnot
      · have ihh := ih (inlineKey f :: seen) (count + 1)
        refine ⟨?_, ?_⟩
        · simp only [List.map_cons, List.pairwise_cons]
          refine ⟨?_, ihh.1⟩
          intro k hk heq
          exact (ihh.2 k hk) (heq ▸ List.mem_cons_self _ _)
        · intro k hk
          simp only [List.map_cons, List.mem_cons] at hk
          rcases hk with hk | hk
          · rw [hk]; exact hnot
          · exact fun hmem =>
              (ihh.2 k hk) (List.mem_cons_of_mem _ hmem)

theorem selectInlineAux_eq_take (limit : Int) (hpos : 0 < limit) :
    ∀ (fs : List Finding) (seen : List (List Char × Nat × List Char))
      (count : Nat), count < limit.toNat →
      selectInlineAux limit seen count fs =
        (firstOccurrencesAux seen fs).take (limit.toNat - count) := by
  have hlim : (limit.toNat : Int) = limit := Int.toNat_of_nonneg (le_of_lt hpos)
  intro fs
  induction fs with
  | nil => intro seen count _; simp [selectInlineAux, firstOccurrencesAux]
  | cons f rest ih =>
    intro seen count hcount
    simp only [selectInlineAux, firstOccurrencesAux]
    split
    · exact ih seen count hcount
    · split
      · next hge =>
        have h1 : limit.toNat ≤ count + 1 := by
          rw [← hlim] at hge
          exact_mod_cast hge
        have h2 : limit.toNat - count = 1 := by omega
        rw [h2]
        rfl
      · next hlt =>
        have h1 : count + 1 < limit.toNat := by
          rw [← hlim] at hlt
          push_neg at hlt
          exact_mod_cast hlt
        have h3 : limit.toNat - count = (limit.toNat - (count + 1)) + 1 := by
          omega
        rw [h3, ih (inlineKey f :: seen) (count + 1) h1]
        rfl

theorem firstOccurrencesAux_length :
    ∀ (fs : List Finding) (seen : List (List Char × Nat × List Char)),
      (firstOccurrencesAux seen fs).length =
        ((fs.map inlineKey).toFinset \ seen.toFinset).card := by
  intro fs
  induction fs with
  | nil => intro seen; simp [firstOccurrencesAux]
  | cons f rest ih =>
    intro seen
    simp only [firstOccurrencesAux]
    split
    · next hmem =>
      rw [ih seen]
      simp only [List.map_cons, List.toFinset_cons]
      rw [Finset.insert_sdiff_of_mem _ (List.mem_toFinset.mpr hmem)]
    · next hmem =>
      rw [List.length_cons, ih (inlineKey f :: seen)]
      simp only [List.map_cons, List.toFinset_cons]
      rw [Finset.sdiff_insert]
      by_cases hkA : inlineKey f ∈ (rest.map inlineKey).toFinset \ seen.toFinset
      · rw [Finset.card_erase_of_mem hkA,
          Finset.insert_sdiff_of_not_mem _ (by simpa using hmem),
          Finset.card_insert_of_mem hkA]
        have := Finset.card_pos.mpr ⟨_, hkA⟩
        omega
      · rw [Finset.erase_eq_of_not_mem hkA,
          Finset.insert_sdiff_of_not_mem _ (by simpa using hmem),
          Finset.card_insert_of_not_mem hkA]

/-- **C4.** For any findings list and positive limit, the inline
comments are exactly the comments of the selected findings, no two of
which share a `(path, line, rule_id)` key, and the number of comments
never exceeds the configured limit (default 50). -/
theorem C4_inline_dedup_and_limit (findings : List Finding) (limit : Int)
    (hpos : 0 < limit) :
    _build_inline_comments findings limit =
      (selectInline findings limit).map mkComment ∧
    ((selectInline findings limit).map inlineKey).Pairwise (· ≠ ·) ∧
    ((_build_inline_comments findings limit).length : Int) ≤ limit := by
  have hns : ¬ (limit ≤ 0) := by omega
  refine ⟨?_, ?_, ?_⟩
  · unfold _build_inline_comments selectInline
    rw [if_neg hns, if_neg hns]
    exact buildInlineAux_eq_map limit findings [] 0
  · unfold selectInline
    rw [if_neg hns]
    exact (selectInlineAux_keys limit findings [] 0).1
  · unfold _build_inline_comments
    rw [if_neg hns, buildInlineAux_eq_map limit findings [] 0,
      selectInlineAux_eq_take limit hpos findings [] 0 (by omega)]
    rw [List.length_map, List.length_take]
    have hlim : (limit.toNat : Int) = limit := Int.toNat_of_nonneg (le_of_lt hpos)
    have : limit.toNat - 0 ⊓ (firstOccurrencesAux [] findings).length ≤
        limit.toNat := by omega
    omega

/-- Witness for C4 at three concrete findings (one duplicated key) and
the default limit 50. -/
theorem C4_inline_dedup_and_limit_witness :
    (0 : Int) < 50 ∧
    (_build_inline_comments
        [⟨pstr "a", 1, pstr "low", pstr "R", pstr "m", pstr "s"⟩,
         ⟨pstr "a", 1, pstr "low", pstr "R", pstr "m2", pstr "s2"⟩,
         ⟨pstr "b", 2, pstr "high", pstr "Q", pstr "m", pstr "s"⟩] 50 =
      (selectInline
        [⟨pstr "a", 1, pstr "low", pstr "R", pstr "m", pstr "s"⟩,
         ⟨pstr "a", 1, pstr "low", pstr "R", pstr "m2", pstr "s2"⟩,
         ⟨pstr "b", 2, pstr "high", pstr "Q", pstr "m", pstr "s"⟩] 50).map
        mkComment ∧
    ((selectInline
        [⟨pstr "a", 1, pstr "low", pstr "R", pstr "m", pstr "s"⟩,
         ⟨pstr "a", 1, pstr "low", pstr "R", pstr "m2", pstr "s2"⟩,
         ⟨pstr "b", 2, pstr "high", pstr "Q", pstr "m", pstr "s"⟩] 50).map
        inlineKey).Pairwise (· ≠ ·) ∧
    ((_build_inline_comments
        [⟨pstr "a", 1, pstr "low", pstr "R", pstr "m", pstr "s"⟩,
         ⟨pstr "a", 1, pstr "low", pstr "R", pstr "m2", pstr "s2"⟩,
         ⟨pstr "b", 2, pstr "high", pstr "Q", pstr "m", pstr "s"⟩] 50).length :
      Int) ≤ 50) :=
  ⟨by decide,
    C4_inline_dedup_and_limit
      [⟨pstr "a", 1, pstr "low", pstr "R", pstr "m", pstr "s"⟩,
       ⟨pstr "a", 1, pstr "low", pstr "R", pstr "m2", pstr "s2"⟩,
       ⟨pstr "b", 2, pstr "high", pstr "Q", pstr "m", pstr "s"⟩] 50 (by decide)⟩

/-- **C9.** A non-positive limit yields no inline comments; a positive
limit yields the comments of the first-occurrence representatives of the
distinct `(path, line, rule_id)` keys, in input order, truncated to the
limit — so the count is the minimum of the limit and the number of
distinct keys. -/
theorem C9_inline_selection (findings : List Finding) (limit : Int) :
    (limit ≤ 0 → _build_inline_comments findings limit = []) ∧
    (0 < limit →
      _build_inline_comments findings limit =
        ((firstOccurrences findings).take limit.toNat).map mkComment ∧
      (_build_inline_comments findings limit).length =
        min limit.toNat ((findings.map inlineKey).toFinset.card)) := by
  constructor
  · intro h
    unfold _build_inline_comments
    rw [if_pos h]
  · intro hpos
    have hns : ¬ (limit ≤ 0) := by omega
    have heq : _build_inline_comments findings limit =
        ((firstOccurrences findings).take limit.toNat).map mkComment := by
      unfold _build_inline_comments firstOccurrences
      rw [if_neg hns, buildInlineAux_eq_map limit findings [] 0,
        selectInlineAux_eq_take limit hpos findings [] 0 (by omega),
        Nat.sub_zero]
    refine ⟨heq, ?_⟩
    rw [heq, List.length_map, List.length_take, firstOccurrences,
      firstOccurrencesAux_length]
    simp

/-- Witness for C9 at a concrete findings list, for a negative and a
positive limit. -/
theorem C9_inline_selection_witness :
    _build_inline_comments
      [⟨pstr "a", 1, pstr "low", pstr "R", pstr "m", pstr "s"⟩,
       ⟨pstr "a", 1, pstr "low", pstr "R", pstr "m2", pstr "s2"⟩,
       ⟨pstr "b", 2, pstr "high", pstr "Q", pstr "m", pstr "s"⟩,
       ⟨pstr "c", 3, pstr "low", pstr "P", pstr "m", pstr "s"⟩] (-3) = [] ∧
    (_build_inline_comments
      [⟨pstr "a", 1, pstr "low", pstr "R", pstr "m", pstr "s"⟩,
       ⟨pstr "a", 1, pstr "low", pstr "R", pstr "m2", pstr "s2"⟩,
       ⟨pstr "b", 2, pstr "high", pstr "Q", pstr "m", pstr "s"⟩,
       ⟨pstr "c", 3, pstr "low", pstr "P", pstr "m", pstr "s"⟩] 2 =
        ((firstOccurrences
          [⟨pstr "a", 1, pstr "low", pstr "R", pstr "m", pstr "s"⟩,
           ⟨pstr "a", 1, pstr "low", pstr "R", pstr "m2", pstr "s2"⟩,
           ⟨pstr "b", 2, pstr "high", pstr "Q", pstr "m", pstr "s"⟩,
           ⟨pstr "c", 3, pstr "low", pstr "P", pstr "m", pstr "s"⟩]).take
            (2 : Int).toNat).map mkComment ∧
      (_build_inline_comments
        [⟨pstr "a", 1, pstr "low", pstr "R", pstr "m", pstr "s"⟩,
         ⟨pstr "a", 1, pstr "low", pstr "R", pstr "m2", pstr "s2"⟩,
         ⟨pstr "b", 2, pstr "high", pstr "Q", pstr "m", pstr "s"⟩,
         ⟨pstr "c", 3, pstr "low", pstr "P", pstr "m", pstr "s"⟩] 2).length =
        min (2 : Int).toNat
          (([⟨pstr "a", 1, pstr "low", pstr "R", pstr "m", pstr "s"⟩,
             ⟨pstr "a", 1, pstr "low", pstr "R", pstr "m2", pstr "s2"⟩,
             ⟨pstr "b", 2, pstr "high", pstr "Q", pstr "m", pstr "s"⟩,
             ⟨pstr "c", 3, pstr "low", pstr "P", pstr "m",
               pstr "s"⟩] : List Finding).map inlineKey).toFinset.card) :=
  ⟨(C9_inline_selection _ (-3)).1 (by decide),
    (C9_inline_selection
      [⟨pstr "a", 1, pstr "low", pstr "R", pstr "m", pstr "s"⟩,
       ⟨pstr "a", 1, pstr "low", pstr "R", pstr "m2", pstr "s2"⟩,
       ⟨pstr "b", 2, pstr "high", pstr "Q", pstr "m", pstr "s"⟩,
       ⟨pstr "c", 3, pstr "low", pstr "P", pstr "m", pstr "s"⟩] 2).2
      (by decide)⟩

/-- **C8.** Zero findings: the payload is exactly the scope summary
(files analyzed, changed lines analyzed) ending in
"No issues found on changed lines.", with an empty inline comment list. -/
theorem C8_zero_findings (maxInline : Int) (file_diffs : List FileDiff) :
    build_review_payload maxInline [] file_diffs =
      (List.intercalate (pstr "\n")
        [ pstr "## SieGe Gatekeeper Review", [], pstr "### Scope",
          pstr "- Files analyzed: " ++ natDigits file_diffs.length,
          pstr "- Changed lines analyzed: " ++
            natDigits ((file_diffs.map fun fd => fd.changed_lines.length).sum),
          [], pstr "### Result", pstr "No issues found on changed lines." ],
       []) ∧
    pstr "No issues found on changed lines." ∈
      reviewBodyLines maxInline [] file_diffs := by
  exact ⟨rfl, by simp [reviewBodyLines]⟩

/-! ## Lemmas about the summary body -/

theorem isTableRow_findingRow (f : Finding) : isTableRow (findingRow f) = true :=
  rfl

theorem countP_head_block (findings : List Finding)
    (file_diffs : List FileDiff) (changedLinesCount : Nat) :
    List.countP isTableRow
      [ pstr "## SieGe Gatekeeper Review", [], pstr "### Scope",
        pstr "- Files analyzed: " ++ natDigits file_diffs.length,
        pstr "- Changed lines analyzed: " ++ natDigits changedLinesCount,
        pstr "- Findings: " ++ natDigits findings.length,
        [], pstr "### Severity Breakdown",
        pstr "| Severity | Count |", pstr "| --- | ---: |",
        severityRow (pstr "HIGH") (findings.countP fun f => f.severity = pstr "high"),
        severityRow (pstr "MEDIUM") (findings.countP fun f => f.severity = pstr "medium"),
        severityRow (pstr "LOW") (findings.countP fun f => f.severity = pstr "low"),
        [], pstr "### Findings (Changed Lines Only)",
        pstr "| File | Line | Severity | Rule | Message |",
        pstr "| --- | ---: | --- | --- | --- |" ] = 0 := by
  have e1 : isTableRow (pstr "## SieGe Gatekeeper Review") = false := rfl
  have e2 : isTableRow ([] : List Char) = false := rfl
  have e3 : isTableRow (pstr "### Scope") = false := rfl
  have e4 : ∀ d, isTableRow (pstr "- Files analyzed: " ++ d) = false :=
    fun _ => rfl
  have e5 : ∀ d, isTableRow (pstr "- Changed lines analyzed: " ++ d) = false :=
    fun _ => rfl
  have e6 : ∀ d, isTableRow (pstr "- Findings: " ++ d) = false := fun _ => rfl
  have e7 : isTableRow (pstr "### Severity Breakdown") = false := rfl
  have e8 : isTableRow (pstr "| Severity | Count |") = false := rfl
  have e9 : isTableRow (pstr "| --- | ---: |") = false := rfl
  have e10 : ∀ n, isTableRow (severityRow (pstr "HIGH") n) = false := fun _ => rfl
  have e11 : ∀ n, isTableRow (severityRow (pstr "MEDIUM") n) = false :=
    fun _ => rfl
  have e12 : ∀ n, isTableRow (severityRow (pstr "LOW") n) = false := fun _ => rfl
  have e13 : isTableRow (pstr "### Findings (Changed Lines Only)") = false := rfl
  have e14 : isTableRow (pstr "| File | Line | Severity | Rule | Message |") =
    false := rfl
  have e15 : isTableRow (pstr "| --- | ---: | --- | --- | --- |") = false := rfl
  simp [List.countP_cons, e1, e2, e3, e4, e5, e6, e7, e8, e9, e10, e11, e12,
    e13, e14, e15]

/-- **C6.** With more than 40 findings, the summary contains exactly 40
table rows, the truncation note reporting `total - 40` omitted findings,
and severity-breakdown rows still counting the whole findings list. -/
theorem C6_table_truncation (maxInline : Int) (findings : List Finding)
    (file_diffs : List FileDiff) (h : 40 < findings.length) :
    (reviewBodyLines maxInline findings file_diffs).countP isTableRow = 40 ∧
    truncationNote (findings.length - 40) ∈
      reviewBodyLines maxInline findings file_diffs ∧
    severityRow (pstr "HIGH") (findings.countP fun f => f.severity = pstr "high") ∈
      reviewBodyLines maxInline findings file_diffs ∧
    severityRow (pstr "MEDIUM")
        (findings.countP fun f => f.severity = pstr "medium") ∈
      reviewBodyLines maxInline findings file_diffs ∧
    severityRow (pstr "LOW") (findings.countP fun f => f.severity = pstr "low") ∈
      reviewBodyLines maxInline findings file_diffs := by
  have hne : findings.isEmpty = false := by
    cases findings with
    | nil => simp at h
    | cons a l => rfl
  have h40 : findings.length > MAX_TABLE_ROWS := h
  have hrows : List.countP isTableRow
      ((findings.take MAX_TABLE_ROWS).map findingRow) = MAX_TABLE_ROWS := by
    rw [List.countP_eq_length.mpr ?_, List.length_map, List.length_take]
    · unfold MAX_TABLE_ROWS
      omega
    · intro a ha
      obtain ⟨f, _, rfl⟩ := List.mem_map.mp ha
      exact isTableRow_findingRow f
  have hnote : ∀ n, isTableRow (truncationNote n) = false := fun _ => rfl
  have hlim : ∀ k m, isTableRow (limitNote k m) = false := fun _ _ => rfl
  have hemp : isTableRow ([] : List Char) = false := rfl
  refine ⟨?_, ?_, ?_, ?_, ?_⟩
  · simp only [reviewBodyLines, hne, Bool.false_eq_true, if_false,
      List.countP_append]
    rw [countP_head_block findings file_diffs, hrows, if_pos h40]
    have h1 : List.countP isTableRow
        [[], truncationNote (findings.length - MAX_TABLE_ROWS)] = 0 := by
      simp [List.countP_cons, hnote, hemp]
    rw [h1]
    split
    · next =>
      simp [List.countP_cons, hlim, hemp, MAX_TABLE_ROWS]
    · simp [MAX_TABLE_ROWS]
  · simp only [reviewBodyLines, hne, Bool.false_eq_true, if_false]
    rw [if_pos h40]
    simp [MAX_TABLE_ROWS, List.mem_append]
  · simp only [reviewBodyLines, hne, Bool.false_eq_true, if_false]
    simp [List.mem_append]
  · simp only [reviewBodyLines, hne, Bool.false_eq_true, if_false]
    simp [List.mem_append]
  · simp only [reviewBodyLines, hne, Bool.false_eq_true, if_false]
    simp [List.mem_append]

/-- Witness for C6: 45 distinct findings give exactly 40 table rows and
a truncation note reporting 5 omitted findings. -/
theorem C6_table_truncation_witness :
    40 < ((List.range 45).map fun i =>
      (⟨pstr "f", i, pstr "high", pstr "R", pstr "m", pstr "s"⟩ : Finding)).length ∧
    (reviewBodyLines 50 ((List.range 45).map fun i =>
      (⟨pstr "f", i, pstr "high", pstr "R", pstr "m", pstr "s"⟩ : Finding))
      []).countP isTableRow = 40 ∧
    truncationNote 5 ∈
      reviewBodyLines 50 ((List.range 45).map fun i =>
        (⟨pstr "f", i, pstr "high", pstr "R", pstr "m", pstr "s"⟩ : Finding)) [] :=
  ⟨by decide,
    (C6_table_truncation 50 ((List.range 45).map fun i =>
      (⟨pstr "f", i, pstr "high", pstr "R", pstr "m", pstr "s"⟩ : Finding)) []
      (by decide)).1,
    (C6_table_truncation 50 ((List.range 45).map fun i =>
      (⟨pstr "f", i, pstr "high", pstr "R", pstr "m", pstr "s"⟩ : Finding)) []
      (by decide)).2.1⟩

/-! ## Lemmas about `build_file_diffs` -/

theorem build_file_diffs_eq (payload : List ChangedFilePayload) :
    build_file_diffs payload = (payload.filter keepPayload).map payloadDiff := by
  induction payload with
  | nil => rfl
  | cons cf rest ih =>
    simp only [build_file_diffs]
    split
    · next hpe =>
      have hk : keepPayload cf = false := by simp [keepPayload, hpe]
      simp [List.filter_cons, hk, ih]
    · next hpe =>
      split
      · next hp =>
        have hk : keepPayload cf = false := by simp [keepPayload, hp]
        simp [List.filter_cons, hk, ih]
      · next plines hp =>
        split
        · next hple =>
          have hk : keepPayload cf = false := by simp [keepPayload, hp, hple]
          simp [List.filter_cons, hk, ih]
        · next hple =>
          split
          · next hce =>
            have hk : keepPayload cf = false := by
              simp [keepPayload, hp, hce]
            simp [List.filter_cons, hk, ih]
          · next hce =>
            have hk : keepPayload cf = true := by
              simp only [keepPayload, hp]
              simp only [Bool.not_eq_true] at hpe hple hce
              simp [hpe, hple, hce]
            rw [List.filter_cons, if_pos hk, List.map_cons, ← ih]
            simp [payloadDiff, hp]

/-- **C10.** `build_file_diffs` keeps the input order (it is a
filter-then-map of the payload), keeping exactly the entries with a
non-empty stripped filename, a present non-empty patch body and at least
one parsed added line; every returned `FileDiff` has a non-empty path
and non-empty `changed_lines`. -/
theorem C10_build_file_diffs (payload : List ChangedFilePayload) :
    build_file_diffs payload = (payload.filter keepPayload).map payloadDiff ∧
    (build_file_diffs payload).all
      (fun fd => !fd.path.isEmpty && !fd.changed_lines.isEmpty) = true := by
  refine ⟨build_file_diffs_eq payload, ?_⟩
  rw [build_file_diffs_eq payload, List.all_eq_true]
  intro fd hfd
  obtain ⟨cf, hcf, rfl⟩ := List.mem_map.mp hfd
  have hk := (List.mem_filter.mp hcf).2
  simp only [keepPayload, Bool.and_eq_true] at hk
  obtain ⟨h1, h2⟩ := hk
  cases hp : cf.patch with
  | none => rw [hp] at h2; exact absurd h2 (by simp)
  | some plines =>
    rw [hp] at h2
    simp only [Bool.and_eq_true] at h2
    simp only [payloadDiff, hp, Option.getD_some, Bool.and_eq_true]
    exact ⟨h1, h2.2⟩
